import Mathlib

/-!
Verification of the bogokernel core (RISC-V Sv39 educational kernel) against
its natural-language specification.  The Rust sources are shallowly embedded:
machine words are `Nat` (with explicit `% 2^64` where the source wraps),
pointers are virtual addresses (`Nat`), byte buffers are `List Nat`, and the
mutable kernel singletons (writable filesystem, fd table, user break, user
page-pool cursor, user address space) are threaded as explicit state.
-/

set_option maxHeartbeats 1000000

namespace Bogo

/-- Decidable equality on `Except`, needed to evaluate concrete fallible
results in witnesses and counterexamples. -/
instance {ε α : Type} [DecidableEq ε] [DecidableEq α] : DecidableEq (Except ε α) := fun a b =>
  match a, b with
  | .ok x, .ok y =>
    if h : x = y then .isTrue (by rw [h])
    else .isFalse (by intro hc; cases hc; exact h rfl)
  | .error x, .error y =>
    if h : x = y then .isTrue (by rw [h])
    else .isFalse (by intro hc; cases hc; exact h rfl)
  | .ok _, .error _ => .isFalse (by intro hc; cases hc)
  | .error _, .ok _ => .isFalse (by intro hc; cases hc)

/-- 2^64 wrap-around, mirroring Rust `usize::wrapping_add` on RV64. -/
def wrap64 (x : Nat) : Nat := x % (2 ^ 64)

/-- The syscall failure sentinel `usize::MAX`. -/
def SENTINEL : Nat := 2 ^ 64 - 1

/-! ## sv39.rs : PTE flag bits, `vpn_indices` -/

/-- `PTE_V: u64 = 1 << 0` (sv39.rs). -/
def PTE_V : Nat := 1 <<< 0
/-- `PTE_R: u64 = 1 << 1` (sv39.rs). -/
def PTE_R : Nat := 1 <<< 1
/-- `PTE_W: u64 = 1 << 2` (sv39.rs). -/
def PTE_W : Nat := 1 <<< 2
/-- `PTE_X: u64 = 1 << 3` (sv39.rs). -/
def PTE_X : Nat := 1 <<< 3
/-- `PTE_U: u64 = 1 << 4` (sv39.rs). -/
def PTE_U : Nat := 1 <<< 4
/-- `PTE_G: u64 = 1 << 5` (sv39.rs). -/
def PTE_G : Nat := 1 <<< 5
/-- `PTE_A: u64 = 1 << 6` (sv39.rs). -/
def PTE_A : Nat := 1 <<< 6
/-- `PTE_D: u64 = 1 << 7` (sv39.rs). -/
def PTE_D : Nat := 1 <<< 7

/-- sv39.rs `vpn_indices`:
`[(va >> 12) & 0x1ff, (va >> 21) & 0x1ff, (va >> 30) & 0x1ff]`. -/
def vpn_indices (va : Nat) : Nat × Nat × Nat :=
  ((va >>> 12) &&& 0x1ff, (va >>> 21) &&& 0x1ff, (va >>> 30) &&& 0x1ff)

/-! ## elf.rs : `pte_flags_from_pf` -/

/-- elf.rs `pte_flags_from_pf`: start from `PTE_V | PTE_U | PTE_A`;
add `PTE_R` if `pf & 4`, `PTE_W | PTE_D` if `pf & 2`, `PTE_X` if `pf & 1`. -/
def pte_flags_from_pf (pf : Nat) : Nat :=
  let f := PTE_V ||| PTE_U ||| PTE_A
  let f := if pf &&& 0x4 ≠ 0 then f ||| PTE_R else f
  let f := if pf &&& 0x2 ≠ 0 then f ||| PTE_W ||| PTE_D else f
  if pf &&& 0x1 ≠ 0 then f ||| PTE_X else f

/-! ## fs.rs : the writable RAM-filesystem layer

Rust `String`/`&str` file names and `Vec<u8>` contents are both embedded as
`List Nat` of byte values.  The `WRITABLE_FILES: Mutex<Vec<WritableFile>>`
singleton is threaded explicitly as a `List WFile`.  The single-threaded
kernel takes the mutex around each operation, so each Rust function is one
atomic state transition here. -/

/-- fs.rs `WritableFile { name: String, data: Vec<u8>, mode: u32 }`. -/
structure WFile where
  name : List Nat
  data : List Nat
  mode : Nat
  deriving DecidableEq, Repr

/-- fs.rs `File { name: &'static str, data: &'static [u8] }` (read-only layer). -/
structure ROFile where
  name : List Nat
  data : List Nat
  deriving DecidableEq, Repr

/-- fs.rs `lookup_writable`: `files.iter().position(|f| f.name == name)`,
translated as structural recursion over the list of writable files. -/
def lookup_writable (files : List WFile) (name : List Nat) : Option Nat :=
  match files with
  | [] => none
  | f :: fs => if f.name = name then some 0 else (lookup_writable fs name).map (· + 1)

/-- fs.rs `create_file`: scan for the first entry with a matching name; if
found, truncate its `data` and set `mode = 0o600`, returning its index;
otherwise push a new record `{name, data: [], mode: 0o600}` at the end and
return its index.  The Rust `Result` is always `Ok`, so the result type is
plain.  Translated as structural recursion over the scan. -/
def create_file (files : List WFile) (name : List Nat) : Nat × List WFile :=
  match files with
  | [] => (0, [⟨name, [], 0o600⟩])
  | f :: fs =>
    if f.name = name then (0, { f with data := [], mode := 0o600 } :: fs)
    else
      let r := create_file fs name
      (r.1 + 1, f :: r.2)

/-- The spliced data buffer of fs.rs `write_file`: `resize(end_pos, 0)` when
`offset + data.len() > len`, then `data[offset..end_pos].copy_from_slice`. -/
def write_splice (d : List Nat) (offset : Nat) (bytes : List Nat) : List Nat :=
  let d1 := if offset + bytes.length > d.length
            then d ++ List.replicate (offset + bytes.length - d.length) 0
            else d
  d1.take offset ++ bytes ++ d1.drop (offset + bytes.length)

/-- fs.rs `write_file(idx, offset, data)`: error when `idx` is out of range,
otherwise grow-and-splice the file's data and return `Ok(data.len())`. -/
def write_file (files : List WFile) (idx offset : Nat) (bytes : List Nat) :
    Except Unit (Nat × List WFile) :=
  match files.get? idx with
  | none => .error ()
  | some f => .ok (bytes.length, files.set idx { f with data := write_splice f.data offset bytes })

/-- fs.rs `read_file(idx, offset, buf)`: error when `idx` out of range;
`Ok(0)` at or past EOF; otherwise copy
`to_read = min(buf.len(), data.len() - offset)` bytes into the front of
`buf` and return `Ok(to_read)`.  The returned list is the caller's buffer
after the copy (its tail beyond `to_read` is untouched). -/
def read_file (files : List WFile) (idx offset : Nat) (buf : List Nat) :
    Except Unit (Nat × List Nat) :=
  match files.get? idx with
  | none => .error ()
  | some f =>
    if offset ≥ f.data.length then .ok (0, buf)
    else
      let available := f.data.drop offset
      let to_read := min buf.length available.length
      .ok (to_read, available.take to_read ++ buf.drop to_read)

/-- fs.rs `file_size(idx)`: `files.get(idx).map(|f| f.data.len())`. -/
def file_size (files : List WFile) (idx : Nat) : Option Nat :=
  (files.get? idx).map (·.data.length)

/-- fs.rs `get_file_data(name)`: detached copy of a writable file's bytes. -/
def get_file_data (files : List WFile) (name : List Nat) : Option (List Nat) :=
  (lookup_writable files name).bind fun idx => (files.get? idx).map (·.data)

/-! ### Write sequences and the spec-side overlay (claim C7) -/

/-- `max(off_i + |buf_i|)` over a sequence of writes, the length of the
spec's zero-filled overlay array. -/
def max_end (ws : List (Nat × List Nat)) : Nat :=
  ws.foldl (fun m w => max m (w.1 + w.2.length)) 0

/-- One step of the spec-side overlay: overwrite `acc[off..off+|buf|]` with
`buf` in place. -/
def spec_overlay_step (acc : List Nat) (w : Nat × List Nat) : List Nat :=
  acc.take w.1 ++ w.2 ++ acc.drop (w.1 + w.2.length)

/-- Spec-side definition (from the spec's words, for the refinement claim C7):
"the overlay of those writes onto a zero-filled array of length
`max(off_i + |buf_i|)`". -/
def spec_overlay (ws : List (Nat × List Nat)) : List Nat :=
  ws.foldl spec_overlay_step (List.replicate (max_end ws) 0)

/-- The file data produced by folding fs.rs `write_file` splices from an
empty buffer. -/
def data_writes (ws : List (Nat × List Nat)) : List Nat :=
  ws.foldl (fun d w => write_splice d w.1 w.2) []

/-- A finite sequence of fs.rs `write_file(idx, off_i, buf_i)` calls
(each `Ok` result replaces the file table; an `Err` leaves it unchanged). -/
def apply_writes (files : List WFile) (idx : Nat) (ws : List (Nat × List Nat)) : List WFile :=
  ws.foldl (fun fs w =>
    match write_file fs idx w.1 w.2 with
    | .ok r => r.2
    | .error _ => fs) files

/-! ## trap.rs : trap frame, fd table, user-memory helpers, syscalls

User memory is embedded as `mem : Nat → Nat` (byte value at a user VA); the
kernel's mutable singletons are the fields of `KState`.  The user address
space is embedded as the list of installed 4 KiB user leaf mappings
`(va, pa, flags)`; the Sv39 radix-trie internals (page-table pool pages)
are below this abstraction and no claim inspects them.  Byte contents of
mapped pages are likewise not modelled; no claim depends on them. -/

/-- trap.rs `TrapFrame` (all fields `usize`). -/
structure TrapFrame where
  ra : Nat
  sp : Nat
  t0 : Nat
  t1 : Nat
  t2 : Nat
  a0 : Nat
  a1 : Nat
  a2 : Nat
  a3 : Nat
  a4 : Nat
  a5 : Nat
  a6 : Nat
  a7 : Nat
  t3 : Nat
  t4 : Nat
  t5 : Nat
  t6 : Nat
  sepc : Nat
  sstatus_bits : Nat
  deriving DecidableEq, Repr

/-- trap.rs `FileType`: index into the read-only `fs::FILES` or the
writable layer. -/
inductive FileType where
  | readOnly (idx : Nat)
  | writable (idx : Nat)
  deriving DecidableEq, Repr

/-- trap.rs `FdEntry`. -/
structure FdEntry where
  in_use : Bool
  file_type : FileType
  offset : Nat
  writable : Bool
  deriving DecidableEq, Repr

/-- trap.rs `FdEntry::EMPTY`. -/
def FdEntry.EMPTY : FdEntry :=
  { in_use := false, file_type := .readOnly 0, offset := 0, writable := false }

/-- trap.rs `MAX_FD`. -/
def MAX_FD : Nat := 32

/-- The kernel's mutable singleton state threaded through the dispatcher:
`WRITABLE_FILES`, `FD_TABLE`, `USER_BRK`, the installed user mappings and
user page-pool cursor (`sv39`), the UART output log, and whether `PT_ROOT`
has been set (`SATP` configured). -/
structure KState where
  files : List WFile
  fdTable : List FdEntry
  userBrk : Nat
  aspace : List (Nat × Nat × Nat)
  userNextPa : Nat
  uart : List Nat
  satpSet : Bool
  deriving DecidableEq, Repr

/-- sv39.rs `alloc_user_page`: bump the user-pool cursor by 4096 and return
the previous cursor value as the fresh physical frame. -/
def alloc_user_page (st : KState) : Nat × KState :=
  (st.userNextPa, { st with userNextPa := st.userNextPa + 4096 })

/-- sv39.rs `map_4k`, abstracted to its net effect on the user address
space: install the leaf `(va, pa, flags)` (last-writer-wins; the most
recent entry for a VA is the live one). -/
def map_4k (st : KState) (va pa flags : Nat) : KState :=
  { st with aspace := (va, pa, flags) :: st.aspace }

/-- Modelled from the spec: `clear_user_mappings` (called from trap.rs but
defined outside `src/`) zeroes all L2 entries covering the user VA range,
i.e. removes every installed user mapping. -/
def clear_user_mappings (st : KState) : KState :=
  { st with aspace := [] }

/-- Modelled from the spec: `reset_user_pages` (called from trap.rs but
defined outside `src/`) resets the user page-pool cursor to its initial
value `USER_PA_POOL_START` (sv39.rs: `0x8800_0000 - 0x100000 - 0x10000`). -/
def USER_PA_POOL_START : Nat := 0x87EF0000

/-- Modelled from the spec: reset the user page-pool cursor on exec. -/
def reset_user_pages (st : KState) : KState :=
  { st with userNextPa := USER_PA_POOL_START }

/-- `(x + 4096) & !4095`: start of the page after the one containing `x`
(trap.rs `page_end` computation; for a 64-bit `x` this equals rounding
`x + 4096` down to a multiple of 4096). -/
def page_round_up (x : Nat) : Nat := (x + 4096) / 4096 * 4096

/-- trap.rs `cap_to_page`: `min(len, page_end.saturating_sub(va))`. -/
def cap_to_page (va len : Nat) : Nat := min len (page_round_up va - va)

/-- The scan loop of trap.rs `read_user_cstr_in_page`: walk bytes from `p`
up to the page end, collecting at most `maxN` bytes, succeeding only on a
NUL terminator.  (The Rust code additionally validates UTF-8; strings are
byte lists here, so that check is identity.) -/
def cstr_scan (mem : Nat → Nat) (fuel maxN : Nat) (p n : Nat) (acc : List Nat) :
    Option (List Nat) :=
  match fuel with
  | 0 => none
  | fuel + 1 =>
    if n < maxN then
      (if mem p = 0 then some acc.reverse
       else cstr_scan mem fuel maxN (p + 1) (n + 1) (mem p :: acc))
    else none

/-- trap.rs `read_user_cstr_in_page(va, max, out)`: fail on a NULL pointer,
otherwise scan within the containing page.  The loop bound `p < page_end`
is carried as the fuel `page_end - va`. -/
def read_user_cstr_in_page (mem : Nat → Nat) (va maxN : Nat) : Option (List Nat) :=
  if va = 0 then none
  else cstr_scan mem (page_round_up va - va) maxN va 0 []

/-- trap.rs `fd_alloc`: first-free scan of slots `3..MAX_FD`; on success the
slot is filled with `{in_use: true, file_type, offset: 0, writable}`. -/
def fd_alloc (tbl : List FdEntry) (ft : FileType) (w : Bool) :
    Option (Nat × List FdEntry) :=
  ((List.range' 3 (MAX_FD - 3)).find? (fun fd => !(tbl.getD fd FdEntry.EMPTY).in_use)).map
    (fun fd => (fd, tbl.set fd { in_use := true, file_type := ft, offset := 0, writable := w }))

/-- trap.rs `fd_get`: copy of the entry when `fd < MAX_FD` and in use. -/
def fd_get (tbl : List FdEntry) (fd : Nat) : Option FdEntry :=
  if fd < MAX_FD ∧ (tbl.getD fd FdEntry.EMPTY).in_use then some (tbl.getD fd FdEntry.EMPTY)
  else none

/-- trap.rs `fd_advance`: `offset.saturating_add(inc)` when the slot is in
use (saturation at `usize::MAX`). -/
def fd_advance (tbl : List FdEntry) (fd inc : Nat) : List FdEntry :=
  if fd < MAX_FD ∧ (tbl.getD fd FdEntry.EMPTY).in_use then
    tbl.set fd { tbl.getD fd FdEntry.EMPTY with
                  offset := min ((tbl.getD fd FdEntry.EMPTY).offset + inc) SENTINEL }
  else tbl

/-- trap.rs `fd_close`: release the slot when in use. -/
def fd_close (tbl : List FdEntry) (fd : Nat) : Bool × List FdEntry :=
  if fd < MAX_FD ∧ (tbl.getD fd FdEntry.EMPTY).in_use then (true, tbl.set fd FdEntry.EMPTY)
  else (false, tbl)

/-- fs.rs `lookup` on the read-only layer / trap.rs
`FILES.iter().enumerate().find(|(_, f)| f.name == path)`. -/
def lookup_ro (files : List ROFile) (name : List Nat) : Option Nat :=
  match files with
  | [] => none
  | f :: fs => if f.name = name then some 0 else (lookup_ro fs name).map (· + 1)

/-- The common failure epilogue of the dispatcher: `a0 = usize::MAX`,
`sepc = sepc.wrapping_add(4)`. -/
def errRet (tf : TrapFrame) : TrapFrame :=
  { tf with a0 := SENTINEL, sepc := wrap64 (tf.sepc + 4) }

/-- trap.rs `sys_open`: read the path from user memory; look up the
writable layer first, then the read-only `FILES`; allocate an fd (with
`writable := false` in both branches); `usize::MAX` on any failure. -/
def sys_open (ro : List ROFile) (mem : Nat → Nat) (st : KState) (tf : TrapFrame) :
    KState × TrapFrame :=
  match read_user_cstr_in_page mem tf.a0 255 with
  | none => (st, errRet tf)
  | some path =>
    match lookup_writable st.files path with
    | some idx =>
      match fd_alloc st.fdTable (.writable idx) false with
      | some r =>
        ({ st with fdTable := r.2 }, { tf with a0 := r.1, sepc := wrap64 (tf.sepc + 4) })
      | none => (st, errRet tf)
    | none =>
      match lookup_ro ro path with
      | some idx =>
        match fd_alloc st.fdTable (.readOnly idx) false with
        | some r =>
          ({ st with fdTable := r.2 }, { tf with a0 := r.1, sepc := wrap64 (tf.sepc + 4) })
        | none => (st, errRet tf)
      | none => (st, errRet tf)

/-- trap.rs `sys_write_fd` (`write(fd, buf, len)`): zero-length or NULL
buffer returns 0; fd 1/2 write to the UART (with `\r` before `\n`);
otherwise the fd must be in use and writable, and the capped byte range is
copied into the file at the current offset. -/
def sys_write_fd (mem : Nat → Nat) (st : KState) (tf : TrapFrame) : KState × TrapFrame :=
  let fd := tf.a0
  let buf := tf.a1
  let len0 := tf.a2
  if buf = 0 ∨ len0 = 0 then (st, { tf with a0 := 0, sepc := wrap64 (tf.sepc + 4) })
  else
    let len := cap_to_page buf len0
    if fd = 1 ∨ fd = 2 then
      let out := (List.range len).foldl (fun o i =>
          let b := mem (buf + i)
          if b = 10 then o ++ [13, b] else o ++ [b]) st.uart
      ({ st with uart := out }, { tf with a0 := len, sepc := wrap64 (tf.sepc + 4) })
    else
      match fd_get st.fdTable fd with
      | none => (st, errRet tf)
      | some entry =>
        if entry.writable = false then (st, errRet tf)
        else
          match entry.file_type with
          | .writable idx =>
            let write_len := min len 4096
            let bytes := (List.range write_len).map (fun i => mem (buf + i))
            match write_file st.files idx entry.offset bytes with
            | .ok r =>
              ({ st with files := r.2, fdTable := fd_advance st.fdTable fd r.1 },
               { tf with a0 := r.1, sepc := wrap64 (tf.sepc + 4) })
            | .error _ => (st, errRet tf)
          | .readOnly _ => (st, errRet tf)

/-- trap.rs `sys_brk`: `brk(0)` reports the current break; growth maps
fresh R/W/U pages over `[old_page_end, new_page_end)` and records the new
break; shrinking is accepted and recorded without unmapping. -/
def sys_brk (st : KState) (tf : TrapFrame) : KState × TrapFrame :=
  let req_brk := tf.a0
  let cur_brk := st.userBrk
  if req_brk = 0 then
    (st, { tf with a0 := cur_brk, sepc := wrap64 (tf.sepc + 4) })
  else if req_brk > cur_brk then
    let old_page_end := (cur_brk + 4095) / 4096 * 4096
    let new_page_end := (req_brk + 4095) / 4096 * 4096
    let st1 :=
      if new_page_end > old_page_end then
        (List.range ((new_page_end - old_page_end) / 4096)).foldl (fun s i =>
          let r := alloc_user_page s
          map_4k r.2 (old_page_end + i * 4096) r.1
            (PTE_V ||| PTE_U ||| PTE_R ||| PTE_W ||| PTE_A ||| PTE_D)) st
      else st
    ({ st1 with userBrk := req_brk }, { tf with a0 := req_brk, sepc := wrap64 (tf.sepc + 4) })
  else
    ({ st with userBrk := req_brk }, { tf with a0 := req_brk, sepc := wrap64 (tf.sepc + 4) })

/-! ## elf.rs : ELF64 loader

`goblin`'s `Elf::parse` is an external dependency; its behaviour on the
inputs the kernel feeds it is modelled from the documented ELF64
little-endian layout (the spec's §6 "ELF input format").  Byte images are
`List Nat`; multi-byte fields are read little-endian. -/

/-- elf.rs `ElfLoadError`. -/
inductive ElfLoadError where
  | Short
  | BadMagic
  | Not64LE
  | NotRiscv
  | PhOutOfBounds
  | SatpNotSet
  | SegmentOverflow
  deriving DecidableEq, Repr

/-- elf.rs `Loaded`. -/
structure Loaded where
  entry_va : Nat
  user_sp : Nat
  argc : Nat
  argv_va : Nat
  envp_va : Nat
  brk : Nat
  deriving DecidableEq, Repr

/-- Little-endian read of `n` bytes at `off` (out-of-range bytes read 0;
the parser bounds-checks before trusting reads). -/
def rdLE (image : List Nat) : Nat → Nat → Nat
  | _, 0 => 0
  | off, k + 1 => image.getD off 0 + 256 * rdLE image (off + 1) k

/-- An ELF64 program header (the fields elf.rs uses). -/
structure PHdr where
  p_type : Nat
  p_flags : Nat
  p_offset : Nat
  p_vaddr : Nat
  p_filesz : Nat
  p_memsz : Nat
  deriving DecidableEq, Repr

/-- Parse `phnum` ELF64 program headers (56 bytes each) at `phoff`. -/
def parse_phdrs (image : List Nat) (phoff phnum : Nat) : List PHdr :=
  (List.range phnum).map fun i =>
    let b := phoff + i * 56
    { p_type := rdLE image b 4, p_flags := rdLE image (b + 4) 4,
      p_offset := rdLE image (b + 8) 8, p_vaddr := rdLE image (b + 16) 8,
      p_filesz := rdLE image (b + 32) 8, p_memsz := rdLE image (b + 40) 8 }

/-- The parsed ELF data elf.rs reads from `goblin`. -/
structure ElfParsed where
  ident : List Nat
  machine : Nat
  entry : Nat
  phs : List PHdr
  deriving DecidableEq, Repr

/-- `goblin::elf::Elf::parse`, modelled from the ELF64 layout: fails
(`None`, which elf.rs maps to `BadMagic`) on a bad magic, an invalid
class/data byte, or a program-header table outside the image. -/
def elf_parse (image : List Nat) : Option ElfParsed :=
  let ident := image.take 16
  if ident.take 4 ≠ [0x7F, 0x45, 0x4C, 0x46] then none
  else if ¬(ident.getD 4 0 = 1 ∨ ident.getD 4 0 = 2) then none
  else if ¬(ident.getD 5 0 = 1 ∨ ident.getD 5 0 = 2) then none
  else
    let phoff := rdLE image 32 8
    let phnum := rdLE image 56 2
    if phnum ≠ 0 ∧ phoff + phnum * 56 > image.length then none
    else some { ident := ident, machine := rdLE image 18 2, entry := rdLE image 24 8,
                phs := parse_phdrs image phoff phnum }

/-- elf.rs `map_user_page`: allocate a fresh user frame and install a 4 KiB
leaf for it. -/
def map_user_page (st : KState) (va_page flags : Nat) : KState :=
  let r := alloc_user_page st
  map_4k r.2 va_page r.1 flags

/-- The per-`PT_LOAD` mapping loop of elf.rs `load_user_elf`: map every
4 KiB page of the page-rounded `[p_vaddr, p_vaddr + p_memsz)` range.  (The
byte copies/zeroing go through the kernel identity map and page contents
are not modelled.) -/
def load_segment (st : KState) (ph : PHdr) : KState :=
  let va0 := ph.p_vaddr - ph.p_vaddr % 4096
  let vaend := (ph.p_vaddr + ph.p_memsz + 4095) / 4096 * 4096
  let flags := pte_flags_from_pf ph.p_flags
  (List.range ((vaend - va0) / 4096)).foldl
    (fun s i => map_user_page s (va0 + i * 4096) flags) st

/-- The `PT_LOAD` iteration of elf.rs `load_user_elf`: skip non-load and
empty segments, bounds-check `[p_offset, p_offset + p_filesz)` against the
image, track the max of `p_vaddr + p_memsz`, and map each segment.  Errors
carry the state mutated so far (the Rust code returns early, keeping the
pages already mapped). -/
def load_segments (image : List Nat) (phs : List PHdr) (st : KState) (acc : Nat) :
    Except (ElfLoadError × KState) (Nat × KState) :=
  match phs with
  | [] => .ok (acc, st)
  | ph :: rest =>
    if ph.p_type ≠ 1 then load_segments image rest st acc
    else if ¬(ph.p_offset + ph.p_filesz ≤ image.length) then .error (.PhOutOfBounds, st)
    else if ph.p_memsz = 0 then load_segments image rest st acc
    else load_segments image rest (load_segment st ph) (max acc (ph.p_vaddr + ph.p_memsz))

/-- The string-push loop of elf.rs `setup_user_stack`: for each string,
`sp -= len + 1`, write it (contents not modelled), and record its VA. -/
def push_strings (sp : Nat) (strs : List (List Nat)) : Nat × List Nat :=
  strs.foldl (fun acc s =>
    let sp2 := acc.1 - (s.length + 1)
    (sp2, acc.2 ++ [sp2])) (sp, [])

/-- elf.rs `setup_user_stack`: map the stack pages (`V|U|R|W|A|D`), reserve
a 16-byte guard, push env then argv strings downward, align to 16, push the
NULL-terminated envp and argv pointer vectors (8 bytes each) and `argc`,
and realign.  The env and argv pointer vectors are two separate
`heapless::Vec<usize, 32>`; a push into a full vector yields
`SegmentOverflow`, so the error fires exactly when envp alone (checked
first) or argv alone holds more than 32 strings. -/
def setup_user_stack (user_stack_top_va user_stack_bytes : Nat)
    (argv envp : List (List Nat)) (st : KState) :
    Except (ElfLoadError × KState) (Nat × Nat × Nat × Nat × KState) :=
  let stack_pages := (user_stack_bytes + 4095) / 4096
  let va0 := (user_stack_top_va - stack_pages * 4096)
    - (user_stack_top_va - stack_pages * 4096) % 4096
  let st1 := (List.range stack_pages).foldl
    (fun s i => map_user_page s (va0 + i * 4096)
      (PTE_V ||| PTE_U ||| PTE_R ||| PTE_W ||| PTE_A ||| PTE_D)) st
  let sp0 := user_stack_top_va - 16
  let r_env := push_strings sp0 envp
  if 32 < envp.length then .error (.SegmentOverflow, st1)
  else
    let r_arg := push_strings r_env.1 argv
    if 32 < argv.length then .error (.SegmentOverflow, st1)
    else
      let sp2 := r_arg.1 - r_arg.1 % 16
      let sp3 := sp2 - 8
      let envp_va := sp3 - 8 * envp.length
      let sp5 := envp_va - 8
      let argv_va := sp5 - 8 * argv.length
      let argc := argv.length
      let sp7 := argv_va - 8
      .ok (sp7 - sp7 % 16, envp_va, argv_va, argc, st1)

/-- elf.rs `load_user_elf`: validate (`Short`, `BadMagic`, `Not64LE`,
`NotRiscv`, `SatpNotSet`), map the `PT_LOAD` segments, build the user
stack, and return the `Loaded` image.  Errors carry the state mutated so
far. -/
def load_user_elf (image : List Nat) (user_stack_top_va user_stack_bytes : Nat)
    (argv envp : List (List Nat)) (st : KState) :
    Except (ElfLoadError × KState) (Loaded × KState) :=
  if image.length < 64 then .error (.Short, st)
  else
    match elf_parse image with
    | none => .error (.BadMagic, st)
    | some e =>
      if e.ident.take 4 ≠ [0x7F, 0x45, 0x4C, 0x46] then .error (.BadMagic, st)
      else if e.ident.getD 4 0 ≠ 2 ∨ e.ident.getD 5 0 ≠ 1 then .error (.Not64LE, st)
      else if e.machine ≠ 243 then .error (.NotRiscv, st)
      else if st.satpSet = false then .error (.SatpNotSet, st)
      else
        match load_segments image e.phs st 0 with
        | .error es => .error es
        | .ok r1 =>
          match setup_user_stack user_stack_top_va user_stack_bytes argv envp r1.2 with
          | .error es => .error es
          | .ok r2 =>
            .ok ({ entry_va := e.entry, user_sp := r2.1, argc := r2.2.2.2.1,
                   argv_va := r2.2.2.1, envp_va := r2.2.1, brk := r1.1 }, r2.2.2.2.2)

/-- trap.rs `load_program`'s stack-region constants. -/
def USER_STACK_TOP : Nat := 0x40008000
/-- trap.rs `load_program`'s stack size (`16 * 1024`). -/
def USER_STACK_BYTES : Nat := 16 * 1024
/-- trap.rs `load_program`'s fixed environment `["PATH=/"]` as bytes. -/
def ENVP0 : List (List Nat) := [[80, 65, 84, 72, 61, 47]]

/-- The post-clear phase of trap.rs `load_program`: run the ELF loader; on
success install the new context into the trap frame (without advancing
`sepc`) and record the new break; on failure set `a0 = usize::MAX` and
advance `sepc` by 4. -/
def load_program_with (st1 : KState) (tf : TrapFrame) (file_data : List Nat)
    (argv : List (List Nat)) : KState × TrapFrame :=
  match load_user_elf file_data USER_STACK_TOP USER_STACK_BYTES argv ENVP0 st1 with
  | .ok r =>
    ({ r.2 with userBrk := r.1.brk },
     { tf with sepc := r.1.entry_va, sp := r.1.user_sp, a0 := r.1.argc,
               a1 := r.1.argv_va, a2 := r.1.envp_va })
  | .error es => (es.2, errRet tf)

/-- trap.rs `load_program`: fetch the file (state unchanged and sentinel if
missing), then clear the old user mappings, reset the user page pool, and
run `load_program_with`. -/
def load_program (st : KState) (tf : TrapFrame) (name : List Nat)
    (argv : List (List Nat)) : KState × TrapFrame :=
  match get_file_data st.files name with
  | none => (st, errRet tf)
  | some file_data =>
    load_program_with (clear_user_mappings (reset_user_pages st)) tf file_data argv

/-- trap.rs `sys_exec`: read the path from user memory (failure: sentinel
and `sepc + 4`), then `load_program` with `argv = [path]`. -/
def sys_exec (mem : Nat → Nat) (st : KState) (tf : TrapFrame) : KState × TrapFrame :=
  match read_user_cstr_in_page mem tf.a0 255 with
  | none => (st, errRet tf)
  | some path => load_program st tf path [path]

/-! ## The SSTATUS.SUM / supervisor-timer gate (claim C2)

The two guard helpers are embedded as transformers on the relevant
interrupt state; a body performing `n` supervisor accesses to user memory
yields a trace of the `(SUM, STIE)` state observed at each access. -/

/-- The supervisor state the SUM gate manipulates: `SSTATUS.SUM` and the
supervisor timer-interrupt enable `SIE.STIE`. -/
structure IntState where
  sum : Bool
  stimer : Bool
  deriving DecidableEq, Repr

/-- trap.rs `with_sum` (and the textually identical elf.rs `with_sum`):
`sstatus::set_sum(); f(); sstatus::clear_sum()` — the timer enable is left
untouched.  Returns the access trace of the `n`-access body and the final
state. -/
def with_sum (n : Nat) (s : IntState) : List IntState × IntState :=
  let s1 := { s with sum := true }
  (List.replicate n s1, { s1 with sum := false })

/-- trap.rs `with_sum_no_timer`: `sie::clear_stimer(); sstatus::set_sum();
f(); sstatus::clear_sum(); sie::set_stimer()`. -/
def with_sum_no_timer (n : Nat) (s : IntState) : List IntState × IntState :=
  ((List.replicate n { sum := true, stimer := false }),
   { sum := false, stimer := true })

/-- The interrupt state at syscall dispatch: trap.rs `init` enables the
supervisor timer (`sie::set_stimer`) and nothing disables it before a
syscall body runs; SUM is clear. -/
def trapEntryIntState : IntState := { sum := false, stimer := true }

/-- The access trace of trap.rs `sys_write_ptrlen` (syscall 1, `write(ptr,
len)`): one guarded access per byte, through `with_sum`. -/
def sys_write_ptrlen_trace (len : Nat) (s : IntState) : List IntState :=
  (with_sum len s).1

/-- The access trace of elf.rs `write_user_bytes` (every user-stack write
of the ELF loader), through elf.rs `with_sum`. -/
def write_user_bytes_trace (n : Nat) (s : IntState) : List IntState :=
  (with_sum n s).1

/-- The access trace of trap.rs `copy_to_user` (and the other
`with_sum_no_timer` users: `read_user_cstr_in_page`, `sys_read`,
`sys_write_fd`, `sys_execv`, `sys_stat`). -/
def copy_to_user_trace (n : Nat) (s : IntState) : List IntState :=
  (with_sum_no_timer n s).1

/-- All-zero trap frame, for building concrete scenarios. -/
def TrapFrame.zero : TrapFrame :=
  { ra := 0, sp := 0, t0 := 0, t1 := 0, t2 := 0, a0 := 0, a1 := 0, a2 := 0, a3 := 0,
    a4 := 0, a5 := 0, a6 := 0, a7 := 0, t3 := 0, t4 := 0, t5 := 0, t6 := 0,
    sepc := 0, sstatus_bits := 0 }

/-- Concrete user memory: the NUL-terminated path `"a"` (byte 97) at VA
`0x1000`, zero elsewhere. -/
def mem0 : Nat → Nat := fun va => if va = 0x1000 then 97 else 0

/-- Concrete kernel state: one writable file `"a"` (empty), an all-free fd
table, everything else at boot defaults. -/
def st0 : KState :=
  { files := [⟨[97], [], 0o600⟩], fdTable := List.replicate 32 FdEntry.EMPTY,
    userBrk := 0, aspace := [], userNextPa := USER_PA_POOL_START, uart := [],
    satpSet := true }

/-- Concrete trap frame issuing `open(0x1000)`. -/
def tf0 : TrapFrame := { TrapFrame.zero with a0 := 0x1000 }

/-- Concrete kernel state for the exec counterexample: one user mapping
installed and one writable file `"b"` whose data `[0]` is not a valid ELF. -/
def stC1 : KState :=
  { st0 with aspace := [(0x40000000, 0x87000000, 7)], files := [⟨[98], [0], 0o755⟩] }

/-- A minimal well-formed ELF64 image: correct magic, ELFCLASS64,
little-endian, `e_machine = EM_RISCV (243)`, entry `0x40000000`, and zero
program headers. -/
def minElf : List Nat :=
  [0x7F, 0x45, 0x4C, 0x46, 2, 1, 1, 0, 0, 0, 0, 0, 0, 0, 0, 0,
   2, 0, 0xF3, 0, 1, 0, 0, 0, 0, 0, 0, 0x40, 0, 0, 0, 0] ++ List.replicate 32 0

/-- 17 one-byte argv strings. -/
def argv17 : List (List Nat) := List.replicate 17 [97]
/-- 17 one-byte envp strings. -/
def envp17 : List (List Nat) := List.replicate 17 [97]

/-- The `a0` results of `n` consecutive `open` syscalls on the same path
(the kernel state evolves; the user re-issues the same registers). -/
def open_results (ro : List ROFile) (mem : Nat → Nat) :
    Nat → KState → TrapFrame → List Nat
  | 0, _, _ => []
  | n + 1, st, tf =>
    let r := sys_open ro mem st tf
    r.2.a0 :: open_results ro mem n r.1 tf

/-! ## Claim theorems for the pure sv39/elf helpers -/

/-- **C4.** For every `pf` in `0..8`, `pte_flags_from_pf pf` contains the bits
`V`, `U` and `A`; contains `R` iff `pf&4` is set; contains `X` iff `pf&1` is
set; contains both `W` and `D` iff `pf&2` is set; and contains no other
permission bits (in particular `G` is clear and no bit outside
`V|R|W|X|U|A|D` is set). -/
theorem pte_flags_from_pf_correct : ∀ pf < 8,
    (pte_flags_from_pf pf &&& PTE_V = PTE_V) ∧
    (pte_flags_from_pf pf &&& PTE_U = PTE_U) ∧
    (pte_flags_from_pf pf &&& PTE_A = PTE_A) ∧
    ((pte_flags_from_pf pf &&& PTE_R ≠ 0) ↔ pf &&& 4 ≠ 0) ∧
    ((pte_flags_from_pf pf &&& PTE_X ≠ 0) ↔ pf &&& 1 ≠ 0) ∧
    ((pte_flags_from_pf pf &&& PTE_W ≠ 0 ∧ pte_flags_from_pf pf &&& PTE_D ≠ 0) ↔ pf &&& 2 ≠ 0) ∧
    (pte_flags_from_pf pf &&& PTE_G = 0) ∧
    (pte_flags_from_pf pf ||| (PTE_V ||| PTE_R ||| PTE_W ||| PTE_X ||| PTE_U ||| PTE_A ||| PTE_D)
      = (PTE_V ||| PTE_R ||| PTE_W ||| PTE_X ||| PTE_U ||| PTE_A ||| PTE_D)) := by
  decide

/-- Closed witness for `pte_flags_from_pf_correct`, instantiated at `pf = 5`. -/
theorem pte_flags_from_pf_correct_witness :
    (5 < 8) ∧ (pte_flags_from_pf 5 &&& PTE_R ≠ 0) :=
  ⟨by decide, ((pte_flags_from_pf_correct 5 (by decide)).2.2.2.1).mpr (by decide)⟩

/-- **C5.** For every virtual address `va < 2^39`, `vpn_indices va` returns
three 9-bit integers `(i0, i1, i2)` with
`(i2 <<< 30) ||| (i1 <<< 21) ||| (i0 <<< 12) = va &&& !0xFFF`
(the 64-bit complement mask `0xFFFFFFFFFFFFF000`). -/
theorem vpn_indices_correct (va : Nat) (h : va < 2 ^ 39) :
    (vpn_indices va).1 < 2 ^ 9 ∧ (vpn_indices va).2.1 < 2 ^ 9 ∧ (vpn_indices va).2.2 < 2 ^ 9 ∧
    (((vpn_indices va).2.2 <<< 30) ||| ((vpn_indices va).2.1 <<< 21) |||
        ((vpn_indices va).1 <<< 12))
      = va &&& 0xFFFFFFFFFFFFF000 := by
  refine ⟨Nat.and_lt_two_pow _ (by norm_num), Nat.and_lt_two_pow _ (by norm_num),
    Nat.and_lt_two_pow _ (by norm_num), ?_⟩
  have hmask : (0xFFFFFFFFFFFFF000 : Nat) = (2 ^ 52 - 1) <<< 12 := by
    norm_num [Nat.shiftLeft_eq]
  have h511 : (0x1ff : Nat) = 2 ^ 9 - 1 := by norm_num
  apply Nat.eq_of_testBit_eq
  intro j
  simp only [vpn_indices, hmask, h511, Nat.testBit_or, Nat.testBit_shiftLeft, Nat.testBit_and,
    Nat.testBit_shiftRight, Nat.testBit_two_pow_sub_one]
  by_cases h39 : 39 ≤ j
  · have hva : va.testBit j = false :=
      Nat.testBit_lt_two_pow (lt_of_lt_of_le h (Nat.pow_le_pow_right (by norm_num) h39))
    by_cases h12 : 12 ≤ j <;> by_cases h21 : 21 ≤ j <;> by_cases h30 : 30 ≤ j <;>
      simp [h12, h21, h30, hva, Nat.add_sub_cancel' (by omega : 12 ≤ j)]
  · by_cases h12 : 12 ≤ j
    · by_cases h21 : 21 ≤ j
      · by_cases h30 : 30 ≤ j
        · have e2 : 30 + (j - 30) = j := by omega
          have e1 : 21 + (j - 21) = j := by omega
          have e0 : 12 + (j - 12) = j := by omega
          simp [h12, h21, h30, e0, e1, e2, show j - 30 < 9 by omega,
            show ¬ (j - 21 < 9) by omega, show ¬ (j - 12 < 9) by omega,
            show j - 12 < 52 by omega]
        · have e1 : 21 + (j - 21) = j := by omega
          have e0 : 12 + (j - 12) = j := by omega
          simp [h12, h21, h30, e0, e1, show j - 21 < 9 by omega,
            show ¬ (j - 12 < 9) by omega, show j - 12 < 52 by omega]
      · have e0 : 12 + (j - 12) = j := by omega
        simp [h12, h21, show ¬ 30 ≤ j by omega, e0, show j - 12 < 9 by omega,
          show j - 12 < 52 by omega]
    · simp [h12, show ¬ 21 ≤ j by omega, show ¬ 30 ≤ j by omega]

/-- Closed witness for `vpn_indices_correct`, at `va = 0x4000_8123`. -/
theorem vpn_indices_correct_witness :
    (0x40008123 < 2 ^ 39) ∧
    (((vpn_indices 0x40008123).2.2 <<< 30) ||| ((vpn_indices 0x40008123).2.1 <<< 21) |||
        ((vpn_indices 0x40008123).1 <<< 12))
      = 0x40008123 &&& 0xFFFFFFFFFFFFF000 :=
  ⟨by norm_num, (vpn_indices_correct 0x40008123 (by norm_num)).2.2.2⟩

/-! ## Filesystem lemmas and claim theorems C6, C7 -/

/-- **C6.** `create_file` always succeeds; when a writable-layer file with
the given name exists (at the index `lookup_writable` finds), its data is
truncated to `[]`, its mode reset to `0o600`, its name and index are kept and
all other entries are untouched; otherwise a fresh record
`{name, data: [], mode: 0o600}` is appended and its index returned. -/
theorem create_file_correct (files : List WFile) (name : List Nat) :
    (∀ i, lookup_writable files name = some i →
      (create_file files name).1 = i ∧
      ((create_file files name).2.get? i).map (fun f => (f.data, f.mode)) = some ([], 0o600) ∧
      ((create_file files name).2.get? i).map (·.name) = (files.get? i).map (·.name) ∧
      (∀ j, j ≠ i → (create_file files name).2.get? j = files.get? j)) ∧
    (lookup_writable files name = none →
      create_file files name = (files.length, files ++ [⟨name, [], 0o600⟩])) := by
  induction files with
  | nil => simp [lookup_writable, create_file]
  | cons f fs ih =>
    by_cases hf : f.name = name
    · refine ⟨fun i hi => ?_, fun hn => ?_⟩
      · simp [lookup_writable, hf] at hi
        subst hi
        refine ⟨by simp [create_file, hf], by simp [create_file, hf],
          by simp [create_file, hf], ?_⟩
        intro j hj
        match j with
        | 0 => exact absurd rfl hj
        | j + 1 => simp [create_file, hf]
      · simp [lookup_writable, hf] at hn
    · refine ⟨fun i hi => ?_, fun hn => ?_⟩
      · simp only [lookup_writable, hf, if_false, Option.map_eq_some'] at hi
        obtain ⟨i', hi', rfl⟩ := hi
        obtain ⟨h1, h2, h3, h4⟩ := ih.1 i' hi'
        refine ⟨by simp [create_file, hf, h1], ?_, ?_, ?_⟩
        · simpa [create_file, hf] using h2
        · simpa [create_file, hf] using h3
        · intro j hj
          match j with
          | 0 => simp [create_file, hf]
          | j + 1 =>
            have := h4 j (by omega)
            simpa [create_file, hf] using this
      · simp only [lookup_writable, hf, if_false, Option.map_eq_none'] at hn
        have := ih.2 hn
        simp [create_file, hf, this]

/-- Closed witness for `create_file_correct`: truncating the existing file
`"a"` (byte `[97]`, data `[1,2]`, mode `0o755`) yields size 0 and mode
`0o600` at the unchanged index 0. -/
theorem create_file_correct_witness :
    lookup_writable [⟨[97], [1, 2], 0o755⟩] [97] = some 0 ∧
    ((create_file [⟨[97], [1, 2], 0o755⟩] [97]).2.get? 0).map (fun f => (f.data, f.mode))
      = some ([], 0o600) :=
  ⟨by decide, ((create_file_correct [⟨[97], [1, 2], 0o755⟩] [97]).1 0 (by decide)).2.1⟩

theorem write_splice_length (d : List Nat) (off : Nat) (bs : List Nat) :
    (write_splice d off bs).length = max d.length (off + bs.length) := by
  unfold write_splice
  by_cases h : off + bs.length > d.length <;> simp [h] <;> omega

theorem write_splice_getD (d : List Nat) (off : Nat) (bs : List Nat) (j : Nat) :
    (write_splice d off bs).getD j 0 =
      if off ≤ j ∧ j < off + bs.length then bs.getD (j - off) 0 else d.getD j 0 := by
  have hd1len : (if off + bs.length > d.length
      then d ++ List.replicate (off + bs.length - d.length) 0 else d).length
      = max d.length (off + bs.length) := by
    by_cases h : off + bs.length > d.length <;> simp [h] <;> omega
  have hd1getD : ∀ k, ((if off + bs.length > d.length
      then d ++ List.replicate (off + bs.length - d.length) 0 else d).getD k 0)
      = d.getD k 0 := by
    intro k
    by_cases h : off + bs.length > d.length
    · simp only [h, if_true, List.getD_eq_getElem?_getD]
      by_cases hk : k < d.length
      · rw [List.getElem?_append_left hk]
      · rw [List.getElem?_append_right (by omega)]
        rw [List.getElem?_replicate]
        have hdk : d[k]? = none := List.getElem?_eq_none (by omega)
        rw [hdk]
        by_cases hk2 : k - d.length < off + bs.length - d.length <;> simp [hk2]
    · simp [h]
  set d1 := (if off + bs.length > d.length
      then d ++ List.replicate (off + bs.length - d.length) 0 else d) with hd1
  show (d1.take off ++ bs ++ d1.drop (off + bs.length)).getD j 0 = _
  have hlen1 : (d1.take off).length = off := by
    rw [List.length_take, hd1len]
    omega
  by_cases h1 : j < off
  · rw [if_neg (by omega)]
    rw [List.getD_eq_getElem?_getD, List.getElem?_append_left (by simp [hlen1]; omega)]
    rw [List.getElem?_append_left (by omega : j < (d1.take off).length)]
    rw [List.getElem?_take_of_lt h1]
    rw [← List.getD_eq_getElem?_getD, hd1getD]
  · by_cases h2 : j < off + bs.length
    · rw [if_pos ⟨by omega, h2⟩]
      rw [List.getD_eq_getElem?_getD, List.getElem?_append_left (by simp [hlen1]; omega)]
      rw [List.getElem?_append_right (by omega : (d1.take off).length ≤ j)]
      rw [hlen1, ← List.getD_eq_getElem?_getD]
    · rw [if_neg (by omega)]
      rw [List.getD_eq_getElem?_getD]
      rw [List.getElem?_append_right (by simp [hlen1]; omega)]
      have h3 : (d1.take off ++ bs).length = off + bs.length := by simp [hlen1]
      rw [h3]
      rw [List.getElem?_drop]
      have h4 : off + bs.length + (j - (off + bs.length)) = j := by omega
      rw [h4, ← List.getD_eq_getElem?_getD, hd1getD]

theorem max_end_init_le (ws : List (Nat × List Nat)) (a : Nat) :
    a ≤ ws.foldl (fun m w => max m (w.1 + w.2.length)) a := by
  induction ws generalizing a with
  | nil => simp
  | cons w ws ih => exact le_trans (le_max_left _ _) (ih _)

theorem le_max_end_general (ws : List (Nat × List Nat)) (a : Nat) (w : Nat × List Nat)
    (hw : w ∈ ws) : w.1 + w.2.length ≤ ws.foldl (fun m x => max m (x.1 + x.2.length)) a := by
  induction ws generalizing a with
  | nil => cases hw
  | cons x xs ih =>
    cases List.mem_cons.mp hw with
    | inl h1 =>
      subst h1
      simp only [List.foldl_cons]
      exact le_trans (le_max_right _ _) (max_end_init_le _ _)
    | inr hw2 => exact ih _ hw2

theorem le_max_end (ws : List (Nat × List Nat)) (w : Nat × List Nat) (hw : w ∈ ws) :
    w.1 + w.2.length ≤ max_end ws := le_max_end_general ws 0 w hw

theorem spec_step_eq_splice (acc : List Nat) (w : Nat × List Nat)
    (h : w.1 + w.2.length ≤ acc.length) :
    spec_overlay_step acc w = write_splice acc w.1 w.2 := by
  unfold spec_overlay_step write_splice
  rw [if_neg (by omega)]

theorem fold_splice_getD (ws : List (Nat × List Nat)) (d e : List Nat)
    (h : ∀ j, d.getD j 0 = e.getD j 0) :
    ∀ j, (ws.foldl (fun x w => write_splice x w.1 w.2) d).getD j 0
        = (ws.foldl (fun x w => write_splice x w.1 w.2) e).getD j 0 := by
  induction ws generalizing d e with
  | nil => exact h
  | cons w ws ih =>
    intro j
    simp only [List.foldl_cons]
    refine ih _ _ (fun k => ?_) j
    rw [write_splice_getD, write_splice_getD]
    by_cases hk : w.1 ≤ k ∧ k < w.1 + w.2.length
    · simp [hk]
    · simpa [hk] using h k

theorem fold_splice_length (ws : List (Nat × List Nat)) (d : List Nat) :
    (ws.foldl (fun x w => write_splice x w.1 w.2) d).length
      = ws.foldl (fun m w => max m (w.1 + w.2.length)) d.length := by
  induction ws generalizing d with
  | nil => rfl
  | cons w ws ih =>
    simp only [List.foldl_cons]
    rw [ih, write_splice_length]

theorem spec_fold_eq_splice_fold (ws : List (Nat × List Nat)) (acc : List Nat)
    (h : ∀ w ∈ ws, w.1 + w.2.length ≤ acc.length) :
    ws.foldl spec_overlay_step acc = ws.foldl (fun x w => write_splice x w.1 w.2) acc := by
  induction ws generalizing acc with
  | nil => rfl
  | cons w ws ih =>
    simp only [List.foldl_cons]
    rw [spec_step_eq_splice acc w (h w (by simp))]
    apply ih
    intro x hx
    rw [write_splice_length]
    have := h x (by simp [hx])
    have := h w (by simp)
    omega

theorem foldl_max_eq_self (ws : List (Nat × List Nat)) (M : Nat)
    (h : ∀ w ∈ ws, w.1 + w.2.length ≤ M) :
    ws.foldl (fun m w => max m (w.1 + w.2.length)) M = M := by
  induction ws with
  | nil => rfl
  | cons w ws ih =>
    simp only [List.foldl_cons]
    have h1 : max M (w.1 + w.2.length) = M := by
      have := h w (by simp)
      omega
    rw [h1]
    exact ih (fun x hx => h x (by simp [hx]))

theorem eq_of_getD_of_length (d e : List Nat) (hl : d.length = e.length)
    (h : ∀ j, d.getD j 0 = e.getD j 0) : d = e := by
  apply List.ext_getElem hl
  intro n h1 h2
  have := h n
  rw [List.getD_eq_getElem?_getD, List.getD_eq_getElem?_getD,
    List.getElem?_eq_getElem h1, List.getElem?_eq_getElem h2] at this
  simpa using this

theorem data_writes_eq_overlay (ws : List (Nat × List Nat)) :
    data_writes ws = spec_overlay ws := by
  have hrange : ∀ w ∈ ws, w.1 + w.2.length ≤ (List.replicate (max_end ws) (0:Nat)).length := by
    intro w hw
    simpa using le_max_end ws w hw
  have hspec : spec_overlay ws
      = ws.foldl (fun x w => write_splice x w.1 w.2) (List.replicate (max_end ws) 0) :=
    spec_fold_eq_splice_fold ws _ hrange
  have hlen : (data_writes ws).length = max_end ws := by
    unfold data_writes
    rw [fold_splice_length]
    rfl
  have hlen2 : (spec_overlay ws).length = max_end ws := by
    rw [hspec, fold_splice_length, List.length_replicate]
    exact foldl_max_eq_self ws (max_end ws) (le_max_end ws)
  apply eq_of_getD_of_length _ _ (by rw [hlen, hlen2])
  intro j
  unfold data_writes
  rw [hspec]
  exact fold_splice_getD ws [] _ (by intro k; simp) j

theorem apply_writes_get (ws : List (Nat × List Nat)) (files : List WFile) (idx : Nat)
    (f : WFile) (h : files.get? idx = some f) :
    (apply_writes files idx ws).get? idx
      = some { f with data := ws.foldl (fun d w => write_splice d w.1 w.2) f.data } := by
  induction ws generalizing files f with
  | nil => simpa [apply_writes] using h
  | cons w ws ih =>
    have hidx : idx < files.length := by
      rw [List.get?_eq_getElem?] at h
      exact (List.getElem?_eq_some_iff.mp h).1
    have hw : write_file files idx w.1 w.2
        = .ok (w.2.length, files.set idx { f with data := write_splice f.data w.1 w.2 }) := by
      unfold write_file
      rw [h]
    show ((w :: ws).foldl _ files).get? idx = _
    simp only [List.foldl_cons, apply_writes] at *
    rw [hw]
    have hget2 : (files.set idx { f with data := write_splice f.data w.1 w.2 }).get? idx
        = some { f with data := write_splice f.data w.1 w.2 } := by
      rw [List.get?_eq_getElem?]
      exact List.getElem?_set_self (by simpa using hidx)
    exact ih _ _ hget2

/-- **C7 (amended).** Starting from a writable file whose data is empty
(e.g. immediately after `create_file`), any finite sequence of
`write_file(idx, off_i, buf_i)` operations followed by
`read_file(idx, 0, out)` with `|out| = max(off_i + |buf_i|)` fills `out`
with exactly the overlay of those writes onto a zero-filled array of that
length.  (The original claim, quantified over every valid index, fails when
the file already holds data: unwritten gaps then show the old bytes, see
the counterexample.) -/
theorem write_read_overlay (files : List WFile) (idx : Nat) (f : WFile)
    (ws : List (Nat × List Nat)) (buf : List Nat)
    (hidx : files.get? idx = some f) (hempty : f.data = [])
    (hbuf : buf.length = max_end ws) :
    read_file (apply_writes files idx ws) idx 0 buf = .ok (max_end ws, spec_overlay ws) := by
  have hget := apply_writes_get ws files idx f hidx
  rw [hempty] at hget
  have hdata : (ws.foldl (fun d w => write_splice d w.1 w.2) ([]:List Nat)) = spec_overlay ws :=
    data_writes_eq_overlay ws
  rw [hdata] at hget
  have hlen : (spec_overlay ws).length = max_end ws := by
    have h1 := data_writes_eq_overlay ws
    have h2 : (data_writes ws).length = max_end ws := by
      unfold data_writes
      rw [fold_splice_length]
      rfl
    rw [← h1, h2]
  have hstep : read_file (apply_writes files idx ws) idx 0 buf =
      (if 0 ≥ (spec_overlay ws).length then (Except.ok (0, buf) : Except Unit (Nat × List Nat))
       else Except.ok (min buf.length ((spec_overlay ws).drop 0).length,
         ((spec_overlay ws).drop 0).take (min buf.length ((spec_overlay ws).drop 0).length)
           ++ buf.drop (min buf.length ((spec_overlay ws).drop 0).length))) := by
    unfold read_file
    rw [hget]
  rw [hstep]
  by_cases hM : max_end ws = 0
  · have h0 : spec_overlay ws = [] := List.eq_nil_of_length_eq_zero (by rw [hlen, hM])
    have hb : buf = [] := List.eq_nil_of_length_eq_zero (by rw [hbuf, hM])
    simp [h0, hb, hM]
  · rw [if_neg (by simp [hlen]; omega)]
    simp only [List.drop_zero]
    have hmin : min buf.length (spec_overlay ws).length = max_end ws := by
      rw [hbuf, hlen]; simp
    rw [hmin]
    have htake : (spec_overlay ws).take (max_end ws) = spec_overlay ws := by
      rw [← hlen]; exact List.take_length _
    have hdrop : buf.drop (max_end ws) = [] := by
      apply List.drop_eq_nil_of_le; omega
    rw [htake, hdrop, List.append_nil]

/-- Closed witness for `write_read_overlay`: file `"f"` starts empty, the
writes `(0, [5])` then `(2, [7])` produce `[5, 0, 7]`, which
`read_file(0, 0, out)` returns with `|out| = 3`. -/
theorem write_read_overlay_witness :
    ([⟨[102], [], 0o600⟩] : List WFile).get? 0 = some ⟨[102], [], 0o600⟩ ∧
    (⟨[102], [], 0o600⟩ : WFile).data = [] ∧
    ([0, 0, 0] : List Nat).length = max_end [(0, [5]), (2, [7])] ∧
    read_file (apply_writes [⟨[102], [], 0o600⟩] 0 [(0, [5]), (2, [7])]) 0 0 [0, 0, 0]
      = .ok (max_end [(0, [5]), (2, [7])], spec_overlay [(0, [5]), (2, [7])]) :=
  ⟨by decide, by decide, by decide,
    write_read_overlay [⟨[102], [], 0o600⟩] 0 ⟨[102], [], 0o600⟩ [(0, [5]), (2, [7])]
      [0, 0, 0] (by decide) (by decide) (by decide)⟩

/-- **C7 counterexample.** The claim as stated (for every valid writable
index, with no restriction on the file's prior contents) is false: a file
whose data is `[1]`, written with `(1, [2])` and read back with
`|out| = 2 = max_end`, returns `[1, 2]`, not the overlay onto zeros
`[0, 2]`. -/
theorem write_read_overlay_counterexample :
    ([0, 0] : List Nat).length = max_end [(1, [2])] ∧
    read_file (apply_writes [⟨[102], [1], 0o600⟩] 0 [(1, [2])]) 0 0 [0, 0]
      ≠ .ok (max_end [(1, [2])], spec_overlay [(1, [2])]) := by
  decide

/-! ## Dispatcher claim theorems C8, C9, C10 -/

/-- **C8.** `brk(0)` returns the current break and changes nothing; for any
`k ≥` the current break, `brk(k); brk(0)` returns `k` (and the second call
changes nothing), and `brk(k); brk(k)` is idempotent: the second call
returns `k` and leaves the recorded break equal to `k`. -/
theorem sys_brk_correct (st : KState) (tf : TrapFrame) (k : Nat) (hk : st.userBrk ≤ k) :
    (tf.a0 = 0 →
      sys_brk st tf = (st, { tf with a0 := st.userBrk, sepc := wrap64 (tf.sepc + 4) })) ∧
    ((sys_brk (sys_brk st { tf with a0 := k }).1 { tf with a0 := 0 }).2.a0 = k ∧
     (sys_brk (sys_brk st { tf with a0 := k }).1 { tf with a0 := 0 }).1
        = (sys_brk st { tf with a0 := k }).1) ∧
    ((sys_brk (sys_brk st { tf with a0 := k }).1 { tf with a0 := k }).2.a0 = k ∧
     (sys_brk (sys_brk st { tf with a0 := k }).1 { tf with a0 := k }).1.userBrk = k ∧
     (sys_brk st { tf with a0 := k }).1.userBrk = k) := by
  refine ⟨fun h0 => by simp [sys_brk, h0], ?_⟩
  by_cases hk0 : k = 0
  · subst hk0
    have hb : st.userBrk = 0 := by omega
    simp [sys_brk, hb]
  · by_cases hgt : k > st.userBrk
    · simp [sys_brk, hk0, hgt]
    · have hb : st.userBrk = k := by omega
      simp [sys_brk, hk0, hb]

/-- Closed witness for `sys_brk_correct` at `st0`, `tf0`, `k = 8192`. -/
theorem sys_brk_correct_witness :
    st0.userBrk ≤ 8192 ∧
    (sys_brk (sys_brk st0 { tf0 with a0 := 8192 }).1 { tf0 with a0 := 0 }).2.a0 = 8192 :=
  ⟨by decide, (sys_brk_correct st0 tf0 8192 (by decide)).2.1.1⟩

/-- **C9.** Every descriptor `fd_alloc` returns lies in `[3, 32)` and slots
0, 1, 2 are never touched; concretely, starting from an all-free table,
29 consecutive `open`s of an existing file return the distinct descriptors
3..31 and the 30th returns the `usize::MAX` sentinel. -/
theorem fd_alloc_correct :
    (∀ tbl ft w r, fd_alloc tbl ft w = some r →
        3 ≤ r.1 ∧ r.1 < 32 ∧ ∀ j < 3, r.2.get? j = tbl.get? j) ∧
    (open_results [] mem0 30 st0 tf0 = List.range' 3 29 ++ [SENTINEL]) ∧
    ((open_results [] mem0 30 st0 tf0).take 29).Nodup := by
  refine ⟨?_, by decide, by decide⟩
  intro tbl ft w r h
  unfold fd_alloc at h
  rw [Option.map_eq_some'] at h
  obtain ⟨fd, hfind, rfl⟩ := h
  have hmem := List.mem_of_find?_eq_some hfind
  rw [List.mem_range'] at hmem
  obtain ⟨i, hi, rfl⟩ := hmem
  have h32 : MAX_FD = 32 := rfl
  refine ⟨by omega, by rw [h32] at hi; omega, ?_⟩
  intro j hj
  simp only [List.get?_eq_getElem?]
  exact List.getElem?_set_ne (by omega)

/-- Closed witness for `fd_alloc_correct`: allocating on the all-free table
returns fd 3 and leaves slots 0..2 alone. -/
theorem fd_alloc_correct_witness :
    fd_alloc (List.replicate 32 FdEntry.EMPTY) (.writable 0) false
      = some (3, (List.replicate 32 FdEntry.EMPTY).set 3
          { in_use := true, file_type := .writable 0, offset := 0, writable := false }) ∧
    (3 ≤ 3 ∧ (3:Nat) < 32 ∧ ∀ j < 3,
      ((List.replicate 32 FdEntry.EMPTY).set 3
          { in_use := true, file_type := .writable 0, offset := 0, writable := false }).get? j
        = (List.replicate 32 FdEntry.EMPTY).get? j) :=
  ⟨by decide, by
    have h := fd_alloc_correct.1 (List.replicate 32 FdEntry.EMPTY) (.writable 0) false
      (3, (List.replicate 32 FdEntry.EMPTY).set 3
        { in_use := true, file_type := .writable 0, offset := 0, writable := false })
      (by decide)
    exact h⟩

/-- `sys_open` either leaves the fd table unchanged or installs exactly one
entry, always with `writable := false`. -/
theorem sys_open_fdTable (ro : List ROFile) (mem : Nat → Nat) (st : KState)
    (tf : TrapFrame) :
    (sys_open ro mem st tf).1.fdTable = st.fdTable ∨
    ∃ fd ft, (sys_open ro mem st tf).1.fdTable
        = st.fdTable.set fd { in_use := true, file_type := ft, offset := 0, writable := false } := by
  rcases hpath : read_user_cstr_in_page mem tf.a0 255 with _ | path
  · simp [sys_open, hpath]
  · rcases hlw : lookup_writable st.files path with _ | idx
    · rcases hro : lookup_ro ro path with _ | idx
      · simp [sys_open, hpath, hlw, hro]
      · rcases halloc : fd_alloc st.fdTable (.readOnly idx) false with _ | r
        · simp [sys_open, hpath, hlw, hro, halloc]
        · obtain ⟨fd, hfind, rfl⟩ := Option.map_eq_some'.mp halloc
          right
          refine ⟨fd, .readOnly idx, ?_⟩
          simp only [sys_open, hpath, hlw, hro, halloc]
    · rcases halloc : fd_alloc st.fdTable (.writable idx) false with _ | r
      · simp [sys_open, hpath, hlw, halloc]
      · obtain ⟨fd, hfind, rfl⟩ := Option.map_eq_some'.mp halloc
        right
        refine ⟨fd, .writable idx, ?_⟩
        simp only [sys_open, hpath, hlw, halloc]

/-- A slot whose `get?` changed by a `set` holds exactly the written entry. -/
theorem set_changed {α : Type} (tbl : List α) (i : Nat) (a : α) (j : Nat)
    (h : (tbl.set i a).get? j ≠ tbl.get? j) : (tbl.set i a).get? j = some a := by
  by_cases hij : i = j
  · subst hij
    by_cases hlen : i < tbl.length
    · rw [List.get?_eq_getElem?]
      exact List.getElem?_set_self hlen
    · exact absurd (by rw [List.set_eq_of_length_le (by omega)]) h
  · exact absurd (by
      rw [List.get?_eq_getElem?, List.get?_eq_getElem?]
      exact List.getElem?_set_ne hij) h

/-- **C10 (amended).** `sys_open` only ever installs descriptors with
`writable := false` (for both the writable-layer and read-only branches),
and a `write(fd, buf, len)` on any fd ≥ 3 whose table entry is not
writable returns the `usize::MAX` sentinel, provided `buf ≠ 0` and
`len ≠ 0`.  (As stated the claim is false for `buf = 0` or `len = 0`,
where the syscall returns 0, not the sentinel: see the counterexample.) -/
theorem open_write_readonly (ro : List ROFile) (mem : Nat → Nat) (st : KState)
    (tf : TrapFrame) :
    (∀ j, (sys_open ro mem st tf).1.fdTable.get? j ≠ st.fdTable.get? j →
        ((sys_open ro mem st tf).1.fdTable.get? j).map (·.writable) = some false) ∧
    (∀ fd buf len, 3 ≤ fd → buf ≠ 0 → len ≠ 0 →
        (st.fdTable.getD fd FdEntry.EMPTY).writable = false →
        tf.a0 = fd → tf.a1 = buf → tf.a2 = len →
        (sys_write_fd mem st tf).2.a0 = SENTINEL) := by
  constructor
  · intro j hj
    rcases sys_open_fdTable ro mem st tf with heq | ⟨fd, ft, heq⟩
    · rw [heq] at hj
      exact absurd rfl hj
    · rw [heq] at hj ⊢
      rw [set_changed st.fdTable fd _ j hj]
      rfl
  · intro fd buf len h3 hbuf hlen hwr ha0 ha1 ha2
    unfold sys_write_fd
    rw [ha0, ha1, ha2]
    rw [if_neg (by push_neg; exact ⟨hbuf, hlen⟩)]
    rw [if_neg (by omega)]
    unfold fd_get
    by_cases hin : fd < MAX_FD ∧ (st.fdTable.getD fd FdEntry.EMPTY).in_use
    · rw [if_pos hin]
      simp only [hwr]
      rfl
    · rw [if_neg hin]
      rfl

/-- Closed witness for `open_write_readonly`: the fd 3 handed out by
`sys_open` on `st0` is not writable, and writing to it with a nonzero
buffer and length returns the sentinel. -/
theorem open_write_readonly_witness :
    ((st0.fdTable.getD 3 FdEntry.EMPTY).writable = false) ∧
    (sys_write_fd mem0 st0 { tf0 with a0 := 3, a1 := 0x2000, a2 := 4 }).2.a0 = SENTINEL :=
  ⟨by decide,
    (open_write_readonly [] mem0 st0 { tf0 with a0 := 3, a1 := 0x2000, a2 := 4 }).2
      3 0x2000 4 (by decide) (by decide) (by decide) (by decide) rfl rfl rfl⟩

/-- **C10 counterexample.** The claim as stated ("every write on a
descriptor obtained from open returns the sentinel") is false at
`len = 0`: after `open` hands out fd 3 (with `writable = false`),
`write(3, 0x2000, 0)` returns 0, not `usize::MAX`. -/
theorem open_write_readonly_counterexample :
    (sys_open [] mem0 st0 tf0).2.a0 = 3 ∧
    ((sys_open [] mem0 st0 tf0).1.fdTable.getD 3 FdEntry.EMPTY).writable = false ∧
    (sys_write_fd mem0 (sys_open [] mem0 st0 tf0).1
        { tf0 with a0 := 3, a1 := 0x2000, a2 := 0 }).2.a0 ≠ SENTINEL := by
  decide

/-! ## Loader state lemmas and claim theorems C1, C2, C3 -/

theorem foldl_map_user_page_files (l : List Nat) (g : Nat → Nat) (flags : Nat) (st : KState) :
    ((l.foldl (fun s i => map_user_page s (g i) flags) st)).files = st.files := by
  induction l generalizing st with
  | nil => rfl
  | cons x xs ih => exact ih _

theorem load_segment_files (st : KState) (ph : PHdr) :
    (load_segment st ph).files = st.files :=
  foldl_map_user_page_files _ _ _ _

theorem load_segments_files (image : List Nat) (phs : List PHdr) (st : KState) (acc : Nat) :
    (∀ e st2, load_segments image phs st acc = .error (e, st2) → st2.files = st.files) ∧
    (∀ r, load_segments image phs st acc = .ok r → r.2.files = st.files) := by
  induction phs generalizing st acc with
  | nil =>
    refine ⟨fun e st2 h => ?_, fun r h => ?_⟩
    · cases h
    · cases h
      rfl
  | cons ph rest ih =>
    by_cases h1 : ph.p_type ≠ 1
    · constructor
      · intro e st2 h
        exact (ih st acc).1 e st2 (by rw [← h]; simp [load_segments, h1])
      · intro r h
        exact (ih st acc).2 r (by rw [← h]; simp [load_segments, h1])
    · by_cases h2 : ¬(ph.p_offset + ph.p_filesz ≤ image.length)
      · constructor
        · intro e st2 h
          have hh : load_segments image (ph :: rest) st acc
              = .error (.PhOutOfBounds, st) := by
            simp [load_segments, h1, h2]
          rw [hh] at h
          cases h
          rfl
        · intro r h
          have hh : load_segments image (ph :: rest) st acc
              = .error (.PhOutOfBounds, st) := by
            simp [load_segments, h1, h2]
          rw [hh] at h
          cases h
      · by_cases h3 : ph.p_memsz = 0
        · constructor
          · intro e st2 h
            exact (ih st acc).1 e st2 (by rw [← h]; simp [load_segments, h1, h2, h3])
          · intro r h
            exact (ih st acc).2 r (by rw [← h]; simp [load_segments, h1, h2, h3])
        · constructor
          · intro e st2 h
            have := (ih (load_segment st ph) (max acc (ph.p_vaddr + ph.p_memsz))).1 e st2
              (by rw [← h]; simp [load_segments, h1, h2, h3])
            rw [this, load_segment_files]
          · intro r h
            have := (ih (load_segment st ph) (max acc (ph.p_vaddr + ph.p_memsz))).2 r
              (by rw [← h]; simp [load_segments, h1, h2, h3])
            rw [this, load_segment_files]

theorem setup_user_stack_files (top bytes : Nat) (argv envp : List (List Nat)) (st : KState) :
    (∀ e st2, setup_user_stack top bytes argv envp st = .error (e, st2) → st2.files = st.files) ∧
    (∀ r, setup_user_stack top bytes argv envp st = .ok r → r.2.2.2.2.files = st.files) := by
  have hst1 : ∀ (va0 : Nat),
      ((List.range ((bytes + 4095) / 4096)).foldl
        (fun s i => map_user_page s (va0 + i * 4096)
          (PTE_V ||| PTE_U ||| PTE_R ||| PTE_W ||| PTE_A ||| PTE_D)) st).files = st.files :=
    fun va0 => foldl_map_user_page_files _ _ _ _
  by_cases henv : 32 < envp.length
  · refine ⟨fun e st2 h => ?_, fun r h => ?_⟩
    · simp only [setup_user_stack, if_pos henv] at h
      cases h
      exact hst1 _
    · simp only [setup_user_stack, if_pos henv] at h
      cases h
  · by_cases harg : 32 < argv.length
    · refine ⟨fun e st2 h => ?_, fun r h => ?_⟩
      · simp only [setup_user_stack, if_neg henv, if_pos harg] at h
        cases h
        exact hst1 _
      · simp only [setup_user_stack, if_neg henv, if_pos harg] at h
        cases h
    · refine ⟨fun e st2 h => ?_, fun r h => ?_⟩
      · simp only [setup_user_stack, if_neg henv, if_neg harg] at h
        cases h
      · simp only [setup_user_stack, if_neg henv, if_neg harg] at h
        cases h
        exact hst1 _

theorem load_user_elf_files (image : List Nat) (top bytes : Nat)
    (argv envp : List (List Nat)) (st : KState) :
    (∀ e st2, load_user_elf image top bytes argv envp st = .error (e, st2) →
        st2.files = st.files) ∧
    (∀ r, load_user_elf image top bytes argv envp st = .ok r → r.2.files = st.files) := by
  unfold load_user_elf
  by_cases hshort : image.length < 64
  · simp only [if_pos hshort]
    exact ⟨fun e st2 h => by cases h; rfl, fun r h => by cases h⟩
  · simp only [if_neg hshort]
    rcases hp : elf_parse image with _ | e
    · exact ⟨fun e2 st2 h => by cases h; rfl, fun r h => by cases h⟩
    · by_cases hmg : e.ident.take 4 ≠ [0x7F, 0x45, 0x4C, 0x46]
      · simp only [if_pos hmg]
        exact ⟨fun e2 st2 h => by cases h; rfl, fun r h => by cases h⟩
      · simp only [if_neg hmg]
        by_cases hcl : e.ident.getD 4 0 ≠ 2 ∨ e.ident.getD 5 0 ≠ 1
        · simp only [if_pos hcl]
          exact ⟨fun e2 st2 h => by cases h; rfl, fun r h => by cases h⟩
        · simp only [if_neg hcl]
          by_cases hm : e.machine ≠ 243
          · simp only [if_pos hm]
            exact ⟨fun e2 st2 h => by cases h; rfl, fun r h => by cases h⟩
          · simp only [if_neg hm]
            by_cases hsat : st.satpSet = false
            · simp only [if_pos hsat]
              exact ⟨fun e2 st2 h => by cases h; rfl, fun r h => by cases h⟩
            · simp only [if_neg hsat]
              rcases hseg : load_segments image e.phs st 0 with es | r1
              · obtain ⟨e1, st1⟩ := es
                have hf1 := (load_segments_files image e.phs st 0).1 e1 st1 hseg
                simp only [hseg]
                refine ⟨fun e2 st2 h => ?_, fun r h => ?_⟩
                · cases h
                  exact hf1
                · cases h
              · have hf1 := (load_segments_files image e.phs st 0).2 r1 hseg
                simp only [hseg]
                rcases hstk : setup_user_stack top bytes argv envp r1.2 with es | r2
                · obtain ⟨e1, st1⟩ := es
                  have hf2 := (setup_user_stack_files top bytes argv envp r1.2).1 e1 st1 hstk
                  simp only [hstk]
                  refine ⟨fun e2 st2 h => ?_, fun r h => ?_⟩
                  · cases h
                    rw [hf2, hf1]
                  · cases h
                · have hf2 := (setup_user_stack_files top bytes argv envp r1.2).2 r2 hstk
                  simp only [hstk]
                  refine ⟨fun e2 st2 h => ?_, fun r h => ?_⟩
                  · cases h
                  · cases h
                    rw [hf2, hf1]

/-- **C1 (amended).** For every failing exec: the dispatcher sets
`a0 = usize::MAX` and advances `sepc` by exactly 4.  When the failure is an
unreadable path string or a missing file, the kernel state (including the
old program's address space) is unchanged.  When the ELF loader itself
fails validation, the writable filesystem is unchanged but the old user
mappings were already cleared and the user page pool already reset before
the loader ran, so the old program's address space does NOT survive (this
is where the original claim fails; see the counterexample). -/
theorem load_program_failure (mem : Nat → Nat) (st : KState) (tf : TrapFrame) :
    (read_user_cstr_in_page mem tf.a0 255 = none →
      sys_exec mem st tf = (st, errRet tf)) ∧
    (∀ name argv, get_file_data st.files name = none →
      load_program st tf name argv = (st, errRet tf)) ∧
    (∀ name argv data e st2, get_file_data st.files name = some data →
      load_user_elf data USER_STACK_TOP USER_STACK_BYTES argv ENVP0
          (clear_user_mappings (reset_user_pages st)) = .error (e, st2) →
      load_program st tf name argv = (st2, errRet tf) ∧ st2.files = st.files) := by
  refine ⟨fun h => ?_, fun name argv h => ?_,
    fun name argv data e st2 h1 h2 => ⟨?_, ?_⟩⟩
  · unfold sys_exec
    rw [h]
  · unfold load_program
    rw [h]
  · unfold load_program
    rw [h1]
    show load_program_with (clear_user_mappings (reset_user_pages st)) tf data argv
        = (st2, errRet tf)
    unfold load_program_with
    rw [h2]
  · exact (load_user_elf_files data USER_STACK_TOP USER_STACK_BYTES argv ENVP0
      (clear_user_mappings (reset_user_pages st))).1 e st2 h2

/-- Closed witness for `load_program_failure`: exec of the invalid ELF
`"b"` (one byte) fails with `Short` after the clear, and the dispatcher
reports the sentinel with `sepc` advanced. -/
theorem load_program_failure_witness :
    get_file_data stC1.files [98] = some [0] ∧
    load_user_elf [0] USER_STACK_TOP USER_STACK_BYTES [[98]] ENVP0
        (clear_user_mappings (reset_user_pages stC1))
      = .error (.Short, clear_user_mappings (reset_user_pages stC1)) ∧
    load_program stC1 TrapFrame.zero [98] [[98]]
      = (clear_user_mappings (reset_user_pages stC1), errRet TrapFrame.zero) :=
  ⟨by decide, by decide,
    ((load_program_failure mem0 stC1 TrapFrame.zero).2.2 [98] [[98]] [0] .Short
      (clear_user_mappings (reset_user_pages stC1)) (by decide) (by decide)).1⟩

/-- **C1 counterexample.** Exec of an existing but invalid ELF (`"b"`, one
byte, loader error `Short`) returns the sentinel and advances `sepc`, but
the old program's address space has been cleared — it is not "unchanged"
as the claim states. -/
theorem load_program_failure_counterexample :
    (load_program stC1 TrapFrame.zero [98] [[98]]).2.a0 = SENTINEL ∧
    (load_program stC1 TrapFrame.zero [98] [[98]]).2.sepc
      = wrap64 (TrapFrame.zero.sepc + 4) ∧
    (load_program stC1 TrapFrame.zero [98] [[98]]).1.aspace ≠ stC1.aspace := by
  decide

/-- **C2 (amended).** Accesses under trap.rs `with_sum_no_timer` (used by
`read_user_cstr_in_page`, `copy_to_user`, `sys_read`, `sys_write_fd`,
`sys_execv`, `sys_stat`) always see SUM set with the supervisor timer
disabled, and the guard restores SUM clear / timer enabled.  Accesses under
`with_sum` (trap.rs `sys_write_ptrlen`, `sys_write_cstr`,
`sys_get_fb_info`, and every elf.rs user-stack write) see SUM set with the
timer enable left in its prior state — so with the timer enabled at trap
entry, SUM is set while the timer interrupt is enabled, contradicting the
original claim (see the counterexample). -/
theorem sum_gate (n : Nat) (s : IntState) :
    (∀ a ∈ (with_sum_no_timer n s).1, a.sum = true ∧ a.stimer = false) ∧
    ((with_sum_no_timer n s).2.sum = false ∧ (with_sum_no_timer n s).2.stimer = true) ∧
    (∀ a ∈ (with_sum n s).1, a.sum = true ∧ a.stimer = s.stimer) ∧
    ((with_sum n s).2.sum = false ∧ (with_sum n s).2.stimer = s.stimer) := by
  refine ⟨?_, ⟨rfl, rfl⟩, ?_, ⟨rfl, rfl⟩⟩
  · intro a ha
    have h := List.eq_of_mem_replicate ha
    subst h
    exact ⟨rfl, rfl⟩
  · intro a ha
    have h := List.eq_of_mem_replicate ha
    subst h
    exact ⟨rfl, rfl⟩

/-- Closed witness for `sum_gate` at a one-access body from the
trap-entry state. -/
theorem sum_gate_witness :
    (⟨true, false⟩ : IntState) ∈ (with_sum_no_timer 1 trapEntryIntState).1 ∧
    ((⟨true, false⟩ : IntState).sum = true ∧ (⟨true, false⟩ : IntState).stimer = false) :=
  ⟨by decide, (sum_gate 1 trapEntryIntState).1 ⟨true, false⟩ (by decide)⟩

/-- **C2 counterexample.** `sys_write_ptrlen` (syscall 1) entered with the
timer enabled performs a user-memory access with SUM set while the
supervisor timer interrupt is still enabled. -/
theorem sum_gate_counterexample :
    (⟨true, true⟩ : IntState) ∈ sys_write_ptrlen_trace 1 trapEntryIntState ∧
    (⟨true, true⟩ : IntState).sum = true ∧ (⟨true, true⟩ : IntState).stimer = true := by
  decide

/-- **C3 (amended).** For the loader (on a well-formed minimal ELF),
`SegmentOverflow` is returned exactly when the envp sequence alone or the
argv sequence alone holds more than 32 pointers: the two pointer vectors
are separate capacity-32 vectors, no bound applies to their combined
length (see the counterexample). -/
theorem argv_envp_overflow (argv envp : List (List Nat)) :
    (∃ st2, load_user_elf minElf USER_STACK_TOP USER_STACK_BYTES argv envp st0
        = .error (.SegmentOverflow, st2)) ↔ (32 < envp.length ∨ 32 < argv.length) := by
  have hred : ∀ (a e : List (List Nat)),
      load_user_elf minElf USER_STACK_TOP USER_STACK_BYTES a e st0
        = (match setup_user_stack USER_STACK_TOP USER_STACK_BYTES a e st0 with
           | .error es => .error es
           | .ok r2 => .ok ({ entry_va := 0x40000000, user_sp := r2.1, argc := r2.2.2.2.1,
                              argv_va := r2.2.2.1, envp_va := r2.2.1, brk := 0 }, r2.2.2.2.2)) :=
    fun a e => rfl
  rw [hred]
  by_cases henv : 32 < envp.length
  · simp only [setup_user_stack, if_pos henv]
    exact ⟨fun _ => Or.inl henv, fun _ => ⟨_, rfl⟩⟩
  · by_cases harg : 32 < argv.length
    · simp only [setup_user_stack, if_neg henv, if_pos harg]
      exact ⟨fun _ => Or.inr harg, fun _ => ⟨_, rfl⟩⟩
    · simp only [setup_user_stack, if_neg henv, if_neg harg]
      constructor
      · rintro ⟨st2, h⟩
        cases h
      · intro h
        omega

/-- **C3 counterexample.** argv and envp with 17 strings each (34 combined
pointers, more than 32) load successfully: no `SegmentOverflow`. -/
theorem argv_envp_overflow_counterexample :
    32 < argv17.length + envp17.length ∧
    (load_user_elf minElf USER_STACK_TOP USER_STACK_BYTES argv17 envp17 st0).isOk = true := by
  decide

end Bogo
